import Mathlib

/-!
Verification of the SSDP crate's header field system, message codec and
packet-buffer layer, as a shallow embedding in Lean.

Byte strings are modelled as `List Char` (all wire content of interest is
ASCII).  Rust `Option`/`Result` fallibility is modelled with `Option` and
`Except`.  Machine integers are modelled as `Nat`/`Int` with explicit range
checks mirroring the source's `from_str_radix` conversions.
-/

namespace Ssdp

/-- Decidable equality for `Except`, needed to evaluate the embedded
fallible operations on concrete inputs. -/
instance {ε α : Type} [DecidableEq ε] [DecidableEq α] : DecidableEq (Except ε α) := fun x y =>
  match x, y with
  | .ok a, .ok b =>
    if h : a = b then .isTrue (by rw [h]) else .isFalse (by simp [h])
  | .error a, .error b =>
    if h : a = b then .isTrue (by rw [h]) else .isFalse (by simp [h])
  | .ok _, .error _ => .isFalse (by simp)
  | .error _, .ok _ => .isFalse (by simp)

/-- Characters legal inside an HTTP header value (model of the byte class
accepted by `HeaderValue::from_str` / `from_bytes`: horizontal tab, or any
byte that is at least 0x20 and not 0x7F). -/
def isValueChar (c : Char) : Bool :=
  c.toNat = 9 || (32 ≤ c.toNat && c.toNat ≠ 127)

/-- HTTP token characters (`tchar`), the class accepted for methods and
header names by the HTTP parser: digits, letters, and the fifteen symbol
characters of RFC 7230. -/
def isTokenChar (c : Char) : Bool :=
  let n := c.toNat
  (48 ≤ n && n ≤ 57) || (65 ≤ n && n ≤ 90) || (97 ≤ n && n ≤ 122) ||
  (n = 33 || n = 35 || n = 36 || n = 37 || n = 38 || n = 39 || n = 42 ||
   n = 43 || n = 45 || n = 46 || n = 94 || n = 95 || n = 96 || n = 124 || n = 126)

/-- Request-target characters accepted by the HTTP parser: any visible byte
(no controls, no space, no DEL). -/
def isUriChar (c : Char) : Bool :=
  33 ≤ c.toNat && c.toNat ≠ 127

/-- ASCII lower-casing of one character, as done by `HeaderName::from_bytes`
and by `eq_ignore_ascii_case` comparisons. -/
def lowerChar (c : Char) : Char :=
  if 65 ≤ c.toNat && c.toNat ≤ 90 then Char.ofNat (c.toNat + 32) else c

/-- ASCII lower-casing of a byte string. -/
def lowerAscii (l : List Char) : List Char := l.map lowerChar

/-- ASCII upper-casing of one character (model of `str::to_uppercase` on the
ASCII header names this crate produces). -/
def upperChar (c : Char) : Char :=
  if 97 ≤ c.toNat && c.toNat ≤ 122 then Char.ofNat (c.toNat - 32) else c

/-- ASCII upper-casing of a byte string. -/
def upperAscii (l : List Char) : List Char := l.map upperChar

/-- Decimal digit value of a character, if it is a digit. -/
def digitVal (c : Char) : Option Nat :=
  if 48 ≤ c.toNat && c.toNat ≤ 57 then some (c.toNat - 48) else none

/-- Accumulate decimal digits left to right; fails on the first non-digit. -/
def digitsValAux (acc : Nat) : List Char → Option Nat
  | [] => some acc
  | c :: cs =>
    match digitVal c with
    | some d => digitsValAux (acc * 10 + d) cs
    | none => none

/-- Value of a non-empty all-digit string; `none` for the empty string or on
any non-digit character. -/
def digitsVal : List Char → Option Nat
  | [] => none
  | c :: cs => digitsValAux 0 (c :: cs)

/-- Bound check shared by the unsigned integer parsers: Rust's checked
accumulation overflows exactly when the final value exceeds the type's
maximum, so the final-value comparison is equivalent. -/
def boundedNat (max : Nat) : Option Nat → Option Nat
  | some n => if n ≤ max then some n else none
  | none => none

/-- Model of Rust `uN::from_str_radix(s, 10)` for an unsigned type with
maximum value `max`: an optional leading `+`, then one or more digits; a
leading `-` is an immediate error for unsigned types. -/
def unsignedFromStr (max : Nat) : List Char → Option Nat
  | [] => none
  | c :: cs =>
    if c = '+' then boundedNat max (digitsVal cs)
    else if c = '-' then none
    else boundedNat max (digitsVal (c :: cs))

/-- Model of Rust `i32::from_str_radix(s, 10)`: an optional sign, then one or
more digits, with the asymmetric two's-complement bounds (`-2^31 ≤ v ≤
2^31 - 1`).  In particular `"-0"` parses to `0`. -/
def i32FromStr : List Char → Option Int
  | [] => none
  | c :: cs =>
    if c = '+' then (boundedNat (2 ^ 31 - 1) (digitsVal cs)).map Int.ofNat
    else if c = '-' then (boundedNat (2 ^ 31) (digitsVal cs)).map (fun n => -(Int.ofNat n))
    else (boundedNat (2 ^ 31 - 1) (digitsVal (c :: cs))).map Int.ofNat

/-- The character of a decimal digit value. -/
def digitChar (d : Nat) : Char := Char.ofNat (48 + d)

/-- Model of Rust's decimal `Display` for unsigned integers
(`format!("{}", n)`): most significant digit first, a single `0` for zero. -/
def natRepr (n : Nat) : List Char :=
  if n = 0 then ['0'] else ((Nat.digits 10 n).reverse).map digitChar

/-- Shape of the strings the integer parsers accept: an optional sign
followed by at least one digit. -/
def numericShape : List Char → Bool
  | [] => false
  | c :: cs =>
    if c = '+' || c = '-' then cs ≠ [] && cs.all (fun d => (digitVal d).isSome)
    else (c :: cs).all (fun d => (digitVal d).isSome)

/-- Modelled from the spec: the `FieldMap` token type of `src/field.rs`,
which is declared by `lib.rs` but absent from the sources; §3 and §4.1 of
the specification define it as `UPnP`/`URN`/`UUID`/`Unknown(key, value)`. -/
inductive FieldMap : Type where
  | UPnP (v : List Char)
  | URN (v : List Char)
  | UUID (v : List Char)
  | Unknown (k v : List Char)
deriving DecidableEq, Repr

/-- Split a byte string at its first colon: the (possibly empty) prefix and
the (possibly empty) remainder; `none` when no colon occurs. -/
def splitColon : List Char → Option (List Char × List Char)
  | [] => none
  | c :: cs =>
    if c = ':' then some ([], cs)
    else (splitColon cs).map (fun p => (c :: p.1, p.2))

/-- Modelled from the spec (§4.1): `FieldMap::parse_bytes` — locate the first
colon (failing if absent or if either side is empty), compare the prefix
case-insensitively against `upnp`, `urn`, `uuid`, and otherwise keep the raw
prefix and remainder as `Unknown`. -/
def FieldMap.parseBytes (l : List Char) : Option FieldMap :=
  match splitColon l with
  | none => none
  | some (k, v) =>
    if k = [] || v = [] then none
    else
      let kl := lowerAscii k
      if kl = ['u', 'p', 'n', 'p'] then some (.UPnP v)
      else if kl = ['u', 'r', 'n'] then some (.URN v)
      else if kl = ['u', 'u', 'i', 'd'] then some (.UUID v)
      else some (.Unknown k v)

/-- Modelled from the spec (§4.1): `FieldMap`'s `Display`/encode — re-join
with a single colon, using the canonical lower-case prefix for the known
variants and the stored key for `Unknown`. -/
def FieldMap.encode : FieldMap → List Char
  | .UPnP v => 'u' :: 'p' :: 'n' :: 'p' :: ':' :: v
  | .URN v => 'u' :: 'r' :: 'n' :: ':' :: v
  | .UUID v => 'u' :: 'u' :: 'i' :: 'd' :: ':' :: v
  | .Unknown k v => k ++ ':' :: v

/-- Model of `HeaderValue::from_str`: succeeds (returning the same string)
exactly when every character is legal in a header value. -/
def headerValueFromStr (l : List Char) : Option (List Char) :=
  if l.all isValueChar then some l else none

/-- Model of `header/man.rs`: the `Man` header is a presence-only marker. -/
inductive Man : Type where
  | mk
deriving DecidableEq, Repr

/-- The only accepted `MAN` value, `"\"ssdp:discover\""` (quotes included). -/
def manValue : List Char := ("\"ssdp:discover\"").data

/-- Model of `Man::decode`: exactly one value, which must equal the literal
`"\"ssdp:discover\""` byte-for-byte. -/
def Man.decode : List (List Char) → Option Man
  | [v] => if v = manValue then some .mk else none
  | _ => none

/-- Model of `Man::encode`: emits the static literal. -/
def Man.encode (_ : Man) : List (List Char) := [manValue]

/-- Model of `header/mx.rs`: wait-time header, a `u8` with invariant `1 ≤ n ≤ 120`. -/
structure MX : Type where
  val : Nat
deriving DecidableEq, Repr

/-- Model of `MX::decode`: exactly one value, parsed with `u8::from_str_radix`, then
required to lie in `[MX_HEADER_MIN, MX_HEADER_MAX] = [1, 120]`. -/
def MX.decode : List (List Char) → Option MX
  | [v] =>
    match unsignedFromStr 255 v with
    | some n => if 1 ≤ n && n ≤ 120 then some ⟨n⟩ else none
    | none => none
  | _ => none

/-- Model of `MX::encode`: the decimal rendering, wrapped as a header value. -/
def MX.encode (m : MX) : List (List Char) :=
  match headerValueFromStr (natRepr m.val) with
  | some v => [v]
  | none => []

/-- Model of `header/nts.rs`: notification sub-type. -/
inductive NTS : Type where
  | Alive
  | Update
  | ByeBye
deriving DecidableEq, Repr

/-- Model of `NTS::decode`: exactly one value, matched byte-for-byte against the
three literals `ssdp:alive`, `ssdp:update`, `ssdp:byebye`. -/
def NTS.decode : List (List Char) → Option NTS
  | [v] =>
    if v = ("ssdp:alive").data then some .Alive
    else if v = ("ssdp:update").data then some .Update
    else if v = ("ssdp:byebye").data then some .ByeBye
    else none
  | _ => none

/-- Model of `NTS::encode`: the corresponding static literal. -/
def NTS.encode : NTS → List (List Char)
  | .Alive => [("ssdp:alive").data]
  | .Update => [("ssdp:update").data]
  | .ByeBye => [("ssdp:byebye").data]

/-- Model of `header/st.rs`: search target. -/
inductive ST : Type where
  | All
  | Target (f : FieldMap)
deriving DecidableEq, Repr

/-- Model of `ST::decode`: exactly one value; the literal `ssdp:all` gives `All`,
anything else must parse as a `FieldMap`. -/
def ST.decode : List (List Char) → Option ST
  | [v] =>
    if v = ("ssdp:all").data then some .All
    else (FieldMap.parseBytes v).map .Target
  | _ => none

/-- Model of `ST::encode`: `ssdp:all` for `All`; for `Target` the field's encoding is
passed through `HeaderValue::from_str(..).unwrap()`, so an illegal encoding
is a panic, modelled as `none`. -/
def ST.encode : ST → Option (List (List Char))
  | .All => some [("ssdp:all").data]
  | .Target f => (headerValueFromStr f.encode).map (fun v => [v])

/-- Model of `header/nt.rs`: notification type, a single `FieldMap`. -/
structure NT : Type where
  f : FieldMap
deriving DecidableEq, Repr

/-- Model of `NT::decode`: exactly one value, which must parse as a `FieldMap`. -/
def NT.decode : List (List Char) → Option NT
  | [v] => (FieldMap.parseBytes v).map .mk
  | _ => none

/-- Model of `NT::encode`: the field's encoding, dropped if it is not a legal header
value (the source only `debug_assert!`s in that case). -/
def NT.encode (n : NT) : List (List Char) :=
  match headerValueFromStr n.f.encode with
  | some v => [v]
  | none => []

/-- Model of `header/bootid.rs`: boot instance counter, a `u32` holding a 31-bit
non-negative value. -/
structure BootID : Type where
  val : Nat
deriving DecidableEq, Repr

/-- Model of `BootID::decode`: exactly one value, parsed with `i32::from_str_radix`
and rejected if negative (so `-0` is accepted as `0`). -/
def BootID.decode : List (List Char) → Option BootID
  | [v] =>
    match i32FromStr v with
    | some i => if i < 0 then none else some ⟨i.toNat⟩
    | none => none
  | _ => none

/-- Model of `BootID::encode`: the decimal rendering, wrapped as a header value. -/
def BootID.encode (b : BootID) : List (List Char) :=
  match headerValueFromStr (natRepr b.val) with
  | some v => [v]
  | none => []

/-- Model of `header/configid.rs`: configuration counter, a `u32` holding a 31-bit
non-negative value. -/
structure ConfigID : Type where
  val : Nat
deriving DecidableEq, Repr

/-- Model of `ConfigID::decode`: takes the first value and — unlike every other
header codec in the crate — never checks for a second supplied value; the
numeric treatment is the same as `BootID`. -/
def ConfigID.decode : List (List Char) → Option ConfigID
  | [] => none
  | v :: _ =>
    match i32FromStr v with
    | some i => if i < 0 then none else some ⟨i.toNat⟩
    | none => none

/-- Model of `ConfigID::encode`: the decimal rendering, wrapped as a header value. -/
def ConfigID.encode (b : ConfigID) : List (List Char) :=
  match headerValueFromStr (natRepr b.val) with
  | some v => [v]
  | none => []

/-- Model of `header/searchport.rs`: unicast search port, a `u16` at least 49152. -/
structure SearchPort : Type where
  val : Nat
deriving DecidableEq, Repr

/-- Model of `SearchPort::decode`: exactly one value, parsed with
`u16::from_str_radix`, then required to be at least `49152`. -/
def SearchPort.decode : List (List Char) → Option SearchPort
  | [v] =>
    match unsignedFromStr 65535 v with
    | some n => if 49152 ≤ n then some ⟨n⟩ else none
    | none => none
  | _ => none

/-- Model of `SearchPort::encode`: the decimal rendering, wrapped as a header value. -/
def SearchPort.encode (p : SearchPort) : List (List Char) :=
  match headerValueFromStr (natRepr p.val) with
  | some v => [v]
  | none => []

/-- Model of `header/usn.rs`: unique service name, one mandatory and one optional
`FieldMap`. -/
structure USN : Type where
  fst : FieldMap
  snd : Option FieldMap
deriving DecidableEq, Repr

/-- The scanning core of `partition_pairs`: with `found` recording whether
the `"::"` separator has already been seen and `last` the previously
examined byte, route each byte to the first or second partition.  The byte
that completes the separator is still routed to the first partition (the
source closure returns `true` on it); everything after goes to the second. -/
def partScan (found : Bool) (last : Char) : List Char → List Char × List Char
  | [] => ([], [])
  | c :: cs =>
    if found then ([], c :: cs)
    else
      let found' := last = ':' && c = ':'
      let p := partScan found' c cs
      (c :: p.1, p.2)

/-- Remove up to two trailing `':'` bytes, as `partition_pairs` does to the
first partition. -/
def stripTwoColons (l : List Char) : List Char :=
  let l1 := if l.getLast? = some ':' then l.dropLast else l
  if l1.getLast? = some ':' then l1.dropLast else l1

/-- Model of `partition_pairs`: split a header value at the first `"::"` (the first
partition keeps the separator bytes, which are then stripped along with up
to two trailing colons); fail on an empty input or an empty first
partition.  The initial peeked byte is compared against itself, so an input
starting with `':'` immediately enters the separator state. -/
def partitionPairs : List Char → Option (List Char × Option (List Char))
  | [] => none
  | c :: cs =>
    let p := partScan (c = ':' && c = ':') c cs
    let first := stripTwoColons (c :: p.1)
    let second := p.2
    match first.isEmpty, second.isEmpty with
    | false, false => some (first, some second)
    | false, true => some (first, none)
    | _, _ => none

/-- Model of `USN::decode`: exactly one value, partitioned by `partition_pairs`; the
first partition must parse as a `FieldMap`, and the second partition's parse
result is used as-is (an unparsable second partition becomes `none`). -/
def USN.decode : List (List Char) → Option USN
  | [v] =>
    match partitionPairs v with
    | some (n, some u) =>
      match FieldMap.parseBytes n with
      | some f => some ⟨f, FieldMap.parseBytes u⟩
      | none => none
    | some (n, none) =>
      match FieldMap.parseBytes n with
      | some f => some ⟨f, none⟩
      | none => none
    | none => none
  | _ => none

/-- Model of `USN::encode`: first field, then `"::"` and the second field when
present; dropped if not a legal header value (the source only
`debug_assert!`s in that case). -/
def USN.encode (u : USN) : List (List Char) :=
  let value :=
    match u.snd with
    | some f2 => u.fst.encode ++ ':' :: ':' :: f2.encode
    | none => u.fst.encode
  match headerValueFromStr value with
  | some v => [v]
  | none => []

/-- Model of `error.rs`: the SSDP error taxonomy.  The `error.rs` present in the
sources is a stale revision (it lacks the `PartialHttp` and
`InvalidBodyForMethod` variants that `message/ssdp.rs` constructs), so the
variant set is taken from the constructing code plus spec §7; `InvalidHttp`
is the malformed-wire-bytes class that wraps HTTP parser failures. -/
inductive SSDPError : Type where
  | InvalidHttp
  | PartialHttp
  | InvalidHttpVersion
  | ResponseCode (code : Nat)
  | InvalidMethod (m : List Char)
  | InvalidUri (uri : List Char)
  | MissingHeader (h : List Char)
  | InvalidHeader (h : List Char)
  | InvalidBodyForMethod (m : List Char)
  | Io
deriving DecidableEq, Repr

/-- Model of `message/mod.rs`: the three SSDP message kinds. -/
inductive MessageType : Type where
  | Notify
  | Search
  | Response
deriving DecidableEq, Repr

/-- Model of `headers::HeaderMap`: name/value pairs in insertion order, with
names stored lower-cased (as `HeaderName` normalizes them). -/
abbrev HeaderMap : Type := List (List Char × List Char)

/-- Model of `HeaderMap` lookup by (lower-cased) name. -/
def hmGet (m : HeaderMap) (name : List Char) : Option (List Char) :=
  match m with
  | [] => none
  | p :: t => if p.1 = name then some p.2 else hmGet t name

/-- Model of `HeaderMap::insert`: replace the value of an existing name in place, or
append a fresh pair. -/
def hmInsert (m : HeaderMap) (name value : List Char) : HeaderMap :=
  match m with
  | [] => [(name, value)]
  | p :: t => if p.1 = name then (name, value) :: t else p :: hmInsert t name value

/-- Model of `message/ssdp.rs`: an SSDP method together with its headers. -/
structure SSDPMessage : Type where
  method : MessageType
  headers : HeaderMap
deriving DecidableEq, Repr

/-- Error codes of the `httparse` crate's parser (the subset this model can
produce). -/
inductive HErr : Type where
  | token
  | newLine
  | version
  | status
  | headerName
  | headerValue
  | tooManyHeaders
deriving DecidableEq, Repr

/-- Outcome of a single parsing step: success with the parsed value and the
remaining input, the distinguished incomplete-input state (`httparse`'s
`Status::Partial`), or a parse error. -/
inductive PResult (α : Type) : Type where
  | ok (a : α) (rest : List Char)
  | more
  | err (e : HErr)
deriving DecidableEq, Repr

/-- A parsed request line plus header block (`httparse::Request` after a
complete parse: the `Option` fields are all filled). -/
structure HRequest : Type where
  method : List Char
  path : List Char
  minor : Nat
  headers : List (List Char × List Char)
deriving DecidableEq, Repr

/-- A parsed status line plus header block (`httparse::Response` after a
complete parse). -/
structure HResponse : Type where
  minor : Nat
  code : Nat
  headers : List (List Char × List Char)
deriving DecidableEq, Repr

/-- Model of the empty-line skipping `httparse` performs before a request
line; a stray `\r`
not followed by `\n` is an error, and running out of input is partial. -/
def skipEmptyLines : List Char → PResult Unit
  | [] => .more
  | ['\r'] => .more
  | '\r' :: '\n' :: r => skipEmptyLines r
  | '\r' :: _ :: _ => .err .newLine
  | '\n' :: r => skipEmptyLines r
  | l => .ok () l

/-- Continue a token already begun: stop at a space, fail on a non-token
byte. -/
def pTokenRest (acc : List Char) : List Char → PResult (List Char)
  | [] => .more
  | c :: cs =>
    if c = ' ' then .ok acc.reverse cs
    else if isTokenChar c then pTokenRest (c :: acc) cs
    else .err .token

/-- A non-empty token followed by a single space (the method of a request
line). -/
def pToken1 : List Char → PResult (List Char)
  | [] => .more
  | c :: cs => if isTokenChar c then pTokenRest [c] cs else .err .token

/-- Continue a request target already begun: stop at a space, fail on a byte
outside the target class. -/
def pUriRest (acc : List Char) : List Char → PResult (List Char)
  | [] => .more
  | c :: cs =>
    if c = ' ' then .ok acc.reverse cs
    else if isUriChar c then pUriRest (c :: acc) cs
    else .err .token

/-- A non-empty request target followed by a single space. -/
def pUri1 : List Char → PResult (List Char)
  | [] => .more
  | c :: cs => if isUriChar c then pUriRest [c] cs else .err .token

/-- The HTTP version: exactly the eight bytes `HTTP/1.0` (minor 0) or
`HTTP/1.1` (minor 1); any other eight bytes are a version error. -/
def pVersion (l : List Char) : PResult Nat :=
  if l.length < 8 then .more
  else if l.take 8 = ("HTTP/1.1").data then .ok 1 (l.drop 8)
  else if l.take 8 = ("HTTP/1.0").data then .ok 0 (l.drop 8)
  else .err .version

/-- The line terminator after the version of a request line: `\r\n` or a
bare `\n`; any other byte is a version error. -/
def pNewlineVersion : List Char → PResult Unit
  | [] => .more
  | ['\r'] => .more
  | '\r' :: '\n' :: r => .ok () r
  | '\r' :: _ :: _ => .err .newLine
  | '\n' :: r => .ok () r
  | _ => .err .version

/-- A header name: token bytes up to the colon. -/
def pHeaderName (acc : List Char) : List Char → PResult (List Char)
  | [] => .more
  | c :: cs =>
    if c = ':' then
      match acc with
      | [] => .err .headerName
      | _ => .ok acc.reverse cs
    else if isTokenChar c then pHeaderName (c :: acc) cs
    else .err .headerName

/-- Skip the optional spaces and tabs between the colon and a header
value. -/
def skipWs : List Char → List Char
  | [] => []
  | c :: cs => if c = ' ' || c = '\t' then skipWs cs else c :: cs

/-- Drop trailing spaces and tabs (the parser trims header values on the
right). -/
def trimWsEnd (l : List Char) : List Char :=
  (l.reverse.dropWhile (fun c => c = ' ' || c = '\t')).reverse

/-- A header value: value-class bytes up to the line terminator, trimmed of
trailing whitespace. -/
def pHeaderValue (acc : List Char) : List Char → PResult (List Char)
  | [] => .more
  | ['\r'] => .more
  | '\r' :: '\n' :: r => .ok (trimWsEnd acc.reverse) r
  | '\r' :: _ :: _ => .err .newLine
  | '\n' :: r => .ok (trimWsEnd acc.reverse) r
  | c :: cs => if isValueChar c then pHeaderValue (c :: acc) cs else .err .headerValue

/-- The header block: repeat name/colon/value lines until the empty line,
failing with `tooManyHeaders` when a header would not fit into the supplied
buffer.  The fuel starts at one more than the remaining input length; each
iteration consumes at least one byte, so it never runs out. -/
def pHeaders (maxH : Nat) (fuel : Nat) (acc : List (List Char × List Char)) (l : List Char) :
    PResult (List (List Char × List Char)) :=
  match fuel with
  | 0 => .more
  | fuel + 1 =>
    match l with
    | [] => .more
    | ['\r'] => .more
    | '\r' :: '\n' :: r => .ok acc.reverse r
    | '\r' :: _ :: _ => .err .newLine
    | '\n' :: r => .ok acc.reverse r
    | l =>
      if maxH ≤ acc.length then .err .tooManyHeaders
      else
        match pHeaderName [] l with
        | .err e => .err e
        | .more => .more
        | .ok name r1 =>
          match pHeaderValue [] (skipWs r1) with
          | .err e => .err e
          | .more => .more
          | .ok value r2 => pHeaders maxH fuel ((name, value) :: acc) r2

/-- Model of `httparse::Request::parse` with a header buffer of `maxH` slots:
skip empty lines, then method, target, version, line end and header
block. -/
def parseRequestBytes (maxH : Nat) (l : List Char) : PResult HRequest :=
  match skipEmptyLines l with
  | .err e => .err e
  | .more => .more
  | .ok _ l1 =>
    match pToken1 l1 with
    | .err e => .err e
    | .more => .more
    | .ok m l2 =>
      match pUri1 l2 with
      | .err e => .err e
      | .more => .more
      | .ok u l3 =>
        match pVersion l3 with
        | .err e => .err e
        | .more => .more
        | .ok ver l4 =>
          match pNewlineVersion l4 with
          | .err e => .err e
          | .more => .more
          | .ok _ l5 =>
            match pHeaders maxH (l5.length + 1) [] l5 with
            | .err e => .err e
            | .more => .more
            | .ok hs rest => .ok ⟨m, u, ver, hs⟩ rest

/-- The status code of a status line: exactly three digits. -/
def pCode : List Char → PResult Nat
  | a :: b :: c :: rest =>
    match digitVal a, digitVal b, digitVal c with
    | some x, some y, some z => .ok (x * 100 + y * 10 + z) rest
    | _, _, _ => .err .status
  | _ => .more

/-- The reason phrase: value-class bytes up to the line terminator. -/
def pReason : List Char → PResult Unit
  | [] => .more
  | ['\r'] => .more
  | '\r' :: '\n' :: r => .ok () r
  | '\r' :: _ :: _ => .err .newLine
  | '\n' :: r => .ok () r
  | c :: cs => if isValueChar c then pReason cs else .err .status

/-- After the status code: either the line ends, or a space introduces a
reason phrase. -/
def pAfterCode : List Char → PResult Unit
  | [] => .more
  | ['\r'] => .more
  | '\r' :: '\n' :: r => .ok () r
  | '\r' :: _ :: _ => .err .newLine
  | '\n' :: r => .ok () r
  | ' ' :: r => pReason r
  | _ => .err .status

/-- Model of `httparse::Response::parse` with a header buffer of `maxH` slots:
version, space, status code, optional reason, line end and header block. -/
def parseResponseBytes (maxH : Nat) (l : List Char) : PResult HResponse :=
  match pVersion l with
  | .err e => .err e
  | .more => .more
  | .ok ver l1 =>
    match l1 with
    | [] => .more
    | ' ' :: l2 =>
      match pCode l2 with
      | .err e => .err e
      | .more => .more
      | .ok code l3 =>
        match pAfterCode l3 with
        | .err e => .err e
        | .more => .more
        | .ok _ l4 =>
          match pHeaders maxH (l4.length + 1) [] l4 with
          | .err e => .err e
          | .more => .more
          | .ok hs rest => .ok ⟨ver, code, hs⟩ rest
    | _ => .err .version

/-- Modelled from the spec: the `From<httparse::Error>` impl used by the
`Err(other)?` conversions lives in the real `error.rs`, which is absent from
the sources (the stale `error.rs` in the tree predates the `httparse` port);
spec §7 classes HTTP parse failures as the malformed-wire-bytes error
`InvalidHttp`. -/
def ssdpErrorOfHErr (_ : HErr) : SSDPError := .InvalidHttp

/-- Model of `validate_http_version`: the parsed minor version must be exactly
`Some(1)`. -/
def validateHttpVersion (minor : Option Nat) : Except SSDPError Unit :=
  if minor = some 1 then .ok () else .error .InvalidHttpVersion

/-- Model of `validate_response_code`: the status code must be exactly 200. -/
def validateResponseCode (code : Nat) : Except SSDPError Unit :=
  if code = 200 then .ok () else .error (.ResponseCode code)

/-- Loop body of `validate_http_headers`: each raw header's name must be
accepted by `HeaderName::from_bytes` (a non-empty token, stored
lower-cased) and its value by `HeaderValue::from_bytes`; pairs are inserted
in order. -/
def validateHeadersAux (acc : HeaderMap) : List (List Char × List Char) → Except SSDPError HeaderMap
  | [] => .ok acc
  | (n, v) :: t =>
    if n = [] || !n.all isTokenChar then .error (.InvalidHeader n)
    else if !v.all isValueChar then .error (.InvalidHeader n)
    else validateHeadersAux (hmInsert acc (lowerAscii n) v) t

/-- Model of `validate_http_headers`: collect the raw header list into a
`HeaderMap`, failing on a malformed name or value. -/
def validateHttpHeaders (hs : List (List Char × List Char)) : Except SSDPError HeaderMap :=
  validateHeadersAux [] hs

/-- The case-sensitive SSDP method names. -/
def notifyMethod : List Char := ("NOTIFY").data

/-- The case-sensitive search method name. -/
def searchMethod : List Char := ("M-SEARCH").data

/-- Model of `message_from_request`: version first, then header syntax, then the
required `Host` header, then the `*` target, then the method. -/
def messageFromRequest (parts : HRequest) : Except SSDPError SSDPMessage :=
  match validateHttpVersion (some parts.minor) with
  | .error e => .error e
  | .ok _ =>
    match validateHttpHeaders parts.headers with
    | .error e => .error e
    | .ok headers =>
      if hmGet headers (("host").data) = none then .error (.MissingHeader (("host").data))
      else if parts.path ≠ ['*'] then .error (.InvalidUri parts.path)
      else if parts.method = notifyMethod then .ok ⟨.Notify, headers⟩
      else if parts.method = searchMethod then .ok ⟨.Search, headers⟩
      else .error (.InvalidMethod parts.method)

/-- Model of `message_from_response`: version first, then the status code, then the
header syntax. -/
def messageFromResponse (parts : HResponse) : Except SSDPError SSDPMessage :=
  match validateHttpVersion (some parts.minor) with
  | .error e => .error e
  | .ok _ =>
    match validateResponseCode parts.code with
    | .error e => .error e
    | .ok _ =>
      match validateHttpHeaders parts.headers with
      | .error e => .error e
      | .ok headers => .ok ⟨.Response, headers⟩

/-- The request parse with the bounded-buffer fast path: 32 header slots,
retried once with 4096 slots on an over-count failure. -/
def parseRequestRetry (l : List Char) : PResult HRequest :=
  match parseRequestBytes 32 l with
  | .err .tooManyHeaders => parseRequestBytes 4096 l
  | r => r

/-- The response parse with the bounded-buffer fast path: 32 header slots,
retried once with 4096 slots on an over-count failure. -/
def parseResponseRetry (l : List Char) : PResult HResponse :=
  match parseResponseBytes 32 l with
  | .err .tooManyHeaders => parseResponseBytes 4096 l
  | r => r

/-- Model of `SSDPMessage::from_packet`: classify by the `HTTP/1` prefix; on the
response path a non-empty body fails (naming the literal `M-SEARCH`) before
any response validation; on the request path the request is validated first
but a non-empty body overrides the outcome with an error naming the
request's own method. -/
def fromPacket (bytes : List Char) : Except SSDPError SSDPMessage :=
  if ("HTTP/1").data.isPrefixOf bytes then
    match parseResponseRetry bytes with
    | .err e => .error (ssdpErrorOfHErr e)
    | .more => .error .PartialHttp
    | .ok parts rest =>
      if rest ≠ [] then .error (.InvalidBodyForMethod (("M-SEARCH").data))
      else messageFromResponse parts
  else
    match parseRequestRetry bytes with
    | .err e => .error (ssdpErrorOfHErr e)
    | .more => .error .PartialHttp
    | .ok parts rest =>
      let res := messageFromRequest parts
      if rest ≠ [] then .error (.InvalidBodyForMethod parts.method)
      else res

/-- Model of `message/search.rs`: transport overhead added to device response
times. -/
def networkTimeoutOverhead : Nat := 1

/-- Model of `message/search.rs`: the default total unicast wait (1 s mandated
response window plus the overhead). -/
def defaultUnicastTimeout : Nat := 1 + networkTimeoutOverhead

/-- Model of `multicast_timeout`: requires an `MX` header and yields `MX + 1`
seconds (the sum is computed in `u8`, hence the wrap at 256); without `MX`
the setup fails with a missing-header error. -/
def multicastTimeout (mx : Option Nat) : Except SSDPError Nat :=
  match mx with
  | some n => .ok ((n + networkTimeoutOverhead) % 256)
  | none => .error (.MissingHeader (("Multicast Searches Require An MX Header").data))

/-- Model of `opt_unicast_timeout`: `MX + 1` seconds when an `MX` header is present,
otherwise the 2-second default. -/
def optUnicastTimeout (mx : Option Nat) : Option Nat :=
  match mx with
  | some n => some ((n + networkTimeoutOverhead) % 256)
  | none => some defaultUnicastTimeout

/-- Model of `net/packet.rs`: maximum datagram payload assumed by the buffer. -/
def maxPcktLen : Nat := 1500

/-- Model of `net/packet.rs`: an owned packet buffer with its MMU bound. -/
structure PacketBuffer : Type where
  buffer : List Char
  mmu : Nat
deriving DecidableEq, Repr

/-- Model of `PacketBuffer::default()`: empty, bounded by `MAX_PCKT_LEN`. -/
def PacketBuffer.default : PacketBuffer := ⟨[], maxPcktLen⟩

/-- Placeholder for `std::io::Error` values (their content is never
inspected by the modelled code). -/
inductive IoError : Type where
  | mk
deriving DecidableEq, Repr

/-- Model of `impl io::Write for PacketBuffer`, method `write`: take at most the
space remaining below the MMU, extend the buffer by that prefix, and return
the accepted count; the implementation has no error path. -/
def PacketBuffer.write (pb : PacketBuffer) (buf : List Char) : Except IoError (PacketBuffer × Nat) :=
  let space := pb.mmu - pb.buffer.length
  let take := min buf.length space
  .ok (⟨pb.buffer ++ buf.take take, pb.mmu⟩, take)

/-- Model of `PacketBuffer::clear`. -/
def PacketBuffer.clear (pb : PacketBuffer) : PacketBuffer := ⟨[], pb.mmu⟩

/-- Model of `net/sender.rs`: a `UdpSender` holds its packet buffer; `sent` records
the datagrams handed to `UdpSocket::send_to`, each one a single datagram to
the fixed destination. -/
structure UdpSender : Type where
  buf : PacketBuffer
  sent : List (List Char)
deriving DecidableEq, Repr

/-- Model of `impl Write for UdpSender`, method `write`: delegate to the packet
buffer. -/
def UdpSender.write (s : UdpSender) (buf : List Char) : Except IoError (UdpSender × Nat) :=
  match s.buf.write buf with
  | .ok (pb, n) => .ok (⟨pb, s.sent⟩, n)
  | .error e => .error e

/-- Model of `impl Write for UdpSender`, method `flush`: transmit the buffered bytes
as one datagram and clear the buffer (the socket send itself is abstracted
as succeeding). -/
def UdpSender.flush (s : UdpSender) : UdpSender :=
  ⟨s.buf.clear, s.sent ++ [s.buf.buffer]⟩

/-- Model of `write_all` on a `PacketBuffer` (the generic `io::Write` wrapper used
by `write!`): a short write is retried, and the follow-up zero-length
acceptance surfaces as a `WriteZero` error, so it succeeds exactly when the
whole input fits. -/
def pbWriteAll (pb : PacketBuffer) (buf : List Char) : Except IoError PacketBuffer :=
  match pb.write buf with
  | .ok (pb', n) => if n = buf.length then .ok pb' else .error .mk
  | .error e => .error e

/-- Model of `net/httpu.rs`, `Request::serialize`: truncate the buffer, then write
the request line, a hard-coded `HOST: 239.255.255.250:1900` line, each
header with an upper-cased name, and the blank-line terminator. -/
def httpuSerializeRequest (method : List Char) (headers : HeaderMap) (packet : PacketBuffer) :
    Except SSDPError PacketBuffer :=
  let pb0 : PacketBuffer := ⟨[], packet.mmu⟩
  match pbWriteAll pb0 (method ++ (" * HTTP/1.1\r\n").data) with
  | .error _ => .error .Io
  | .ok pb1 =>
    match pbWriteAll pb1 (("HOST: 239.255.255.250:1900\r\n").data) with
    | .error _ => .error .Io
    | .ok pb2 =>
      match headers.foldlM
        (fun pb p => pbWriteAll pb (upperAscii p.1 ++ (": ").data ++ p.2 ++ ("\r\n").data)) pb2 with
      | .error _ => .error .Io
      | .ok pb3 =>
        match pbWriteAll pb3 (("\r\n").data) with
        | .error _ => .error .Io
        | .ok pb4 => .ok pb4

/-- Model of `message/ssdp.rs`, `send_request`: builds the `httpm://` URL for the
destination and a header copy with `Content-Length: 0`, but the final write
to the connector (`request.start()?.send()?`) is commented out in the
source, so the returned list of byte strings written to the network is
empty. -/
def sendRequest (method : List Char) (headers : HeaderMap) (dstIp : List Char) (dstPort : Nat) :
    Except SSDPError (List (List Char)) :=
  let _url := ("httpm://").data ++ dstIp ++ ':' :: natRepr dstPort
  let _headers := hmInsert headers (("content-length").data) (natRepr 0)
  let _method := method
  .ok []

/-- Whether a byte string contains two adjacent colons (the `"::"`
separator `partition_pairs` splits at). -/
def hasPair : List Char → Bool
  | a :: b :: t => (a = ':' && b = ':') || hasPair (b :: t)
  | _ => false

/-- The reserved field prefixes, lower-cased. -/
def reservedKeys : List (List Char) :=
  [['u', 'p', 'n', 'p'], ['u', 'r', 'n'], ['u', 'u', 'i', 'd']]

/-- A canonical `FieldMap` value: the payloads are non-empty and legal as
header-value bytes, and an `Unknown` key is non-empty, colon-free, legal,
and not a case-insensitive spelling of a reserved prefix.  These are
exactly the values whose encoding parses back (the spec's bare
non-emptiness invariant admits values such as `Unknown("uuid", v)` whose
encoding re-parses as a different variant). -/
def FieldMap.canonicalB : FieldMap → Bool
  | .UPnP v | .URN v | .UUID v => !v.isEmpty && v.all isValueChar
  | .Unknown k v =>
    !k.isEmpty && !v.isEmpty && !k.contains ':' && k.all isValueChar &&
    v.all isValueChar && !(reservedKeys.contains (lowerAscii k))

/-- Extra conditions on the first `USN` field: its encoding must not contain
the `"::"` separator and must not end in a colon, otherwise `USN::encode`
produces a value that `partition_pairs` splits elsewhere. -/
def usnFirstOK (f : FieldMap) : Bool :=
  f.canonicalB && !hasPair f.encode && !(f.encode.getLast? = some ':')

/-! ### Decimal printing and parsing -/

theorem digitVal_digitChar {d : Nat} (h : d < 10) : digitVal (digitChar d) = some d := by
  interval_cases d <;> decide

theorem digitChar_ne_plus {d : Nat} (h : d < 10) : digitChar d ≠ '+' := by
  interval_cases d <;> decide

theorem digitChar_ne_minus {d : Nat} (h : d < 10) : digitChar d ≠ '-' := by
  interval_cases d <;> decide

theorem isValueChar_digitChar {d : Nat} (h : d < 10) : isValueChar (digitChar d) = true := by
  interval_cases d <;> decide

theorem digitsValAux_map (L : List Nat) (acc : Nat) (h : ∀ d ∈ L, d < 10) :
    digitsValAux acc (L.map digitChar) = some (L.foldl (fun a d => a * 10 + d) acc) := by
  induction L generalizing acc with
  | nil => rfl
  | cons d t ih =>
    rw [List.map_cons, digitsValAux, digitVal_digitChar (h d (by simp))]
    exact ih _ (fun x hx => h x (List.mem_cons_of_mem _ hx))

theorem foldl_digits_reverse (n : Nat) :
    ((Nat.digits 10 n).reverse).foldl (fun a d => a * 10 + d) 0 = n := by
  rw [List.foldl_reverse]
  have : ∀ L : List Nat, L.foldr (fun d a => a * 10 + d) 0 = Nat.ofDigits 10 L := by
    intro L
    induction L with
    | nil => rfl
    | cons d t ih =>
      rw [List.foldr_cons, ih, Nat.ofDigits_cons]
      ring
  rw [this, Nat.ofDigits_digits]

theorem natRepr_eq_cons (n : Nat) : ∃ d t, natRepr n = digitChar d :: t ∧ d < 10 := by
  by_cases h : n = 0
  · exact ⟨0, [], by subst h; decide, by norm_num⟩
  · unfold natRepr
    rw [if_neg h]
    cases hrev : (Nat.digits 10 n).reverse with
    | nil =>
      have : Nat.digits 10 n = [] := by simpa using congrArg List.reverse hrev
      exact absurd this (Nat.digits_ne_nil_iff_ne_zero.mpr h)
    | cons d t =>
      refine ⟨d, t.map digitChar, by rw [List.map_cons], ?_⟩
      exact Nat.digits_lt_base (by norm_num)
        (List.mem_reverse.mp (by rw [hrev]; exact List.mem_cons_self d t))

theorem digitsVal_natRepr (n : Nat) : digitsVal (natRepr n) = some n := by
  by_cases h : n = 0
  · subst h; decide
  · unfold natRepr
    rw [if_neg h]
    cases hrev : (Nat.digits 10 n).reverse with
    | nil =>
      have : Nat.digits 10 n = [] := by simpa using congrArg List.reverse hrev
      exact absurd this (Nat.digits_ne_nil_iff_ne_zero.mpr h)
    | cons d t =>
      have hlt : ∀ x ∈ d :: t, x < 10 := by
        intro x hx
        exact Nat.digits_lt_base (by norm_num) (List.mem_reverse.mp (by rw [hrev]; exact hx))
      have hmap := digitsValAux_map (d :: t) 0 hlt
      rw [List.map_cons] at hmap
      rw [List.map_cons, digitsVal, hmap]
      have := foldl_digits_reverse n
      rw [hrev] at this
      rw [this]

theorem natRepr_all_value (n : Nat) : (natRepr n).all isValueChar = true := by
  by_cases h : n = 0
  · subst h; decide
  · unfold natRepr
    rw [if_neg h]
    rw [List.all_eq_true]
    intro c hc
    obtain ⟨d, hd, rfl⟩ := List.mem_map.mp hc
    exact isValueChar_digitChar
      (Nat.digits_lt_base (by norm_num) (List.mem_reverse.mp hd))

theorem unsignedFromStr_natRepr (max : Nat) {n : Nat} (h : n ≤ max) :
    unsignedFromStr max (natRepr n) = some n := by
  obtain ⟨d, t, ht, hd⟩ := natRepr_eq_cons n
  rw [ht, unsignedFromStr, if_neg (by simpa using digitChar_ne_plus hd),
    if_neg (by simpa using digitChar_ne_minus hd), ← ht, digitsVal_natRepr,
    boundedNat, if_pos h]

theorem i32FromStr_natRepr {n : Nat} (h : n ≤ 2 ^ 31 - 1) :
    i32FromStr (natRepr n) = some (n : Int) := by
  obtain ⟨d, t, ht, hd⟩ := natRepr_eq_cons n
  rw [ht, i32FromStr, if_neg (by simpa using digitChar_ne_plus hd),
    if_neg (by simpa using digitChar_ne_minus hd), ← ht, digitsVal_natRepr,
    boundedNat, if_pos h, Option.map_some']
  rfl

theorem digitsValAux_none {l : List Char} (hl : ∃ c ∈ l, digitVal c = none) (acc : Nat) :
    digitsValAux acc l = none := by
  induction l generalizing acc with
  | nil => simp at hl
  | cons c t ih =>
    obtain ⟨x, hx, hxv⟩ := hl
    rw [digitsValAux]
    rcases List.mem_cons.mp hx with rfl | hx
    · rw [hxv]
    · cases hv : digitVal c with
      | none => rfl
      | some d => exact ih ⟨x, hx, hxv⟩ _

theorem digitsVal_head_digit {c : Char} {cs : List Char} {n : Nat}
    (h : digitsVal (c :: cs) = some n) : digitVal c ≠ none := by
  intro hc
  rw [digitsVal, digitsValAux, hc] at h
  exact Option.noConfusion h

theorem numericShape_of_digitsVal {l : List Char} {n : Nat} (h : digitsVal l = some n) :
    l ≠ [] ∧ l.all (fun d => (digitVal d).isSome) = true := by
  cases l with
  | nil => exact absurd h (by rw [digitsVal]; exact Option.noConfusion)
  | cons c cs =>
    refine ⟨by simp, ?_⟩
    rw [List.all_eq_true]
    intro x hx
    by_contra hnone
    have : digitVal x = none := by
      cases hv : digitVal x with
      | none => rfl
      | some d => rw [hv] at hnone; simp at hnone
    rw [digitsVal, digitsValAux_none ⟨x, hx, this⟩] at h
    exact Option.noConfusion h

theorem digitsVal_none_of_not_all {l : List Char}
    (h : l.all (fun d => (digitVal d).isSome) = false) : digitsVal l = none := by
  cases l with
  | nil => rfl
  | cons c cs =>
    rw [List.all_eq_false] at h
    obtain ⟨x, hx, hxv⟩ := h
    have hxn : digitVal x = none := by
      cases hv : digitVal x with
      | none => rfl
      | some d => rw [hv] at hxv; simp at hxv
    rw [digitsVal]
    exact digitsValAux_none ⟨x, hx, hxn⟩ 0

theorem i32FromStr_none_of_not_numeric {l : List Char} (h : numericShape l = false) :
    i32FromStr l = none := by
  cases l with
  | nil => rfl
  | cons c cs =>
    rw [numericShape] at h
    rw [i32FromStr]
    by_cases hp : c = '+'
    · rw [if_pos hp]
      rw [if_pos (by rw [hp]; simp), Bool.and_eq_false_iff] at h
      rcases h with h | h
      · have : cs = [] := by simpa using h
        subst this
        rfl
      · rw [digitsVal_none_of_not_all h]
        rfl
    · by_cases hm : c = '-'
      · rw [if_neg hp, if_pos hm]
        rw [if_pos (by rw [hm]; simp), Bool.and_eq_false_iff] at h
        rcases h with h | h
        · have : cs = [] := by simpa using h
          subst this
          rfl
        · rw [digitsVal_none_of_not_all h]
          rfl
      · rw [if_neg hp, if_neg hm]
        rw [if_neg (by simp [hp, hm])] at h
        rw [digitsVal_none_of_not_all h]
        rfl

/-! ### Field grammar round trip -/

theorem splitColon_append {k : List Char} (v : List Char) (hk : ':' ∉ k) :
    splitColon (k ++ ':' :: v) = some (k, v) := by
  induction k with
  | nil => rw [List.nil_append, splitColon, if_pos rfl]
  | cons c t ih =>
    have hc : c ≠ ':' := fun hc => hk (by rw [hc]; exact List.mem_cons_self _ _)
    rw [List.cons_append, splitColon, if_neg hc, ih (fun ht => hk (List.mem_cons_of_mem c ht))]
    rfl

theorem parseBytes_keyed {k : List Char} (v : List Char) (hk : ':' ∉ k) (hkne : k ≠ [])
    (hv : v ≠ []) :
    FieldMap.parseBytes (k ++ ':' :: v) =
      (if lowerAscii k = ['u', 'p', 'n', 'p'] then some (.UPnP v)
       else if lowerAscii k = ['u', 'r', 'n'] then some (.URN v)
       else if lowerAscii k = ['u', 'u', 'i', 'd'] then some (.UUID v)
       else some (.Unknown k v)) := by
  unfold FieldMap.parseBytes
  rw [splitColon_append v hk]
  simp [hkne, hv]

theorem parseBytes_encode {fm : FieldMap} (h : fm.canonicalB = true) :
    FieldMap.parseBytes fm.encode = some fm := by
  cases fm with
  | UPnP v =>
    have hv : v ≠ [] := by
      rw [FieldMap.canonicalB, Bool.and_eq_true] at h
      simpa using h.1
    show FieldMap.parseBytes (['u', 'p', 'n', 'p'] ++ ':' :: v) = some (.UPnP v)
    rw [parseBytes_keyed v (by decide) (by decide) hv, if_pos (by decide)]
  | URN v =>
    have hv : v ≠ [] := by
      rw [FieldMap.canonicalB, Bool.and_eq_true] at h
      simpa using h.1
    show FieldMap.parseBytes (['u', 'r', 'n'] ++ ':' :: v) = some (.URN v)
    rw [parseBytes_keyed v (by decide) (by decide) hv, if_neg (by decide), if_pos (by decide)]
  | UUID v =>
    have hv : v ≠ [] := by
      rw [FieldMap.canonicalB, Bool.and_eq_true] at h
      simpa using h.1
    show FieldMap.parseBytes (['u', 'u', 'i', 'd'] ++ ':' :: v) = some (.UUID v)
    rw [parseBytes_keyed v (by decide) (by decide) hv, if_neg (by decide), if_neg (by decide),
      if_pos (by decide)]
  | Unknown k v =>
    rw [FieldMap.canonicalB] at h
    simp only [Bool.and_eq_true, Bool.not_eq_true'] at h
    obtain ⟨⟨⟨⟨⟨hkne, hvne⟩, hkc⟩, -⟩, -⟩, hres⟩ := h
    have hk : ':' ∉ k := by simpa using hkc
    have hkne' : k ≠ [] := by simpa [List.isEmpty_iff] using hkne
    have hvne' : v ≠ [] := by simpa [List.isEmpty_iff] using hvne
    show FieldMap.parseBytes (k ++ ':' :: v) = some (.Unknown k v)
    rw [parseBytes_keyed v hk hkne' hvne']
    simp only [reservedKeys] at hres
    rw [if_neg, if_neg, if_neg]
    · intro hcon
      rw [hcon] at hres
      simp at hres
    · intro hcon
      rw [hcon] at hres
      simp at hres
    · intro hcon
      rw [hcon] at hres
      simp at hres

/-! ### `partition_pairs` on separator-free and separator-carrying values -/

theorem hasPair_cons_cons (a b : Char) (t : List Char) :
    hasPair (a :: b :: t) = ((a = ':' && b = ':') || hasPair (b :: t)) := rfl

theorem partScan_cons_false (last c : Char) (cs : List Char) :
    partScan false last (c :: cs) =
      (c :: (partScan (last = ':' && c = ':') c cs).1,
        (partScan (last = ':' && c = ':') c cs).2) := rfl

theorem partScan_true (last : Char) (l : List Char) : partScan true last l = ([], l) := by
  cases l <;> rfl

theorem partScan_noPair {l : List Char} {last : Char} (h : hasPair (last :: l) = false) :
    partScan false last l = (l, []) := by
  induction l generalizing last with
  | nil => rfl
  | cons c cs ih =>
    rw [hasPair_cons_cons, Bool.or_eq_false_iff] at h
    rw [partScan_cons_false, h.1, ih h.2]

theorem partScan_sep {s1 : List Char} {last : Char} (s2 : List Char)
    (h : hasPair ((last :: s1) ++ [':']) = false) :
    partScan false last (s1 ++ ':' :: ':' :: s2) = (s1 ++ [':', ':'], s2) := by
  induction s1 generalizing last with
  | nil =>
    rw [List.cons_append, List.nil_append, hasPair_cons_cons, Bool.or_eq_false_iff] at h
    have hlast : (last = ':' && (':' : Char) = ':') = false := h.1
    rw [List.nil_append, partScan_cons_false, hlast, partScan_cons_false,
      show ((':' : Char) = ':' && (':' : Char) = ':') = true by decide, partScan_true]
    rfl
  | cons c t ih =>
    rw [List.cons_append, List.cons_append, hasPair_cons_cons, Bool.or_eq_false_iff] at h
    rw [List.cons_append, partScan_cons_false, h.1, ih h.2]
    rfl

theorem hasPair_append_colon {l : List Char} (h1 : hasPair l = false)
    (h2 : l.getLast? ≠ some ':') : hasPair (l ++ [':']) = false := by
  induction l with
  | nil => rfl
  | cons c t ih =>
    cases t with
    | nil =>
      have hc : c ≠ ':' := by simpa using h2
      show hasPair [c, ':'] = false
      rw [hasPair_cons_cons, show hasPair [':'] = false from rfl]
      simp [hc]
    | cons b u =>
      rw [hasPair_cons_cons, Bool.or_eq_false_iff] at h1
      rw [List.cons_append, List.cons_append, hasPair_cons_cons, Bool.or_eq_false_iff]
      refine ⟨h1.1, ?_⟩
      exact ih h1.2 (by simpa [List.getLast?_cons_cons] using h2)

theorem stripTwoColons_of_ne {l : List Char} (h : l.getLast? ≠ some ':') :
    stripTwoColons l = l := by
  rw [stripTwoColons, if_neg h, if_neg h]

theorem stripTwoColons_append_sep {l : List Char} (h : l.getLast? ≠ some ':') :
    stripTwoColons (l ++ [':', ':']) = l := by
  have e : l ++ [':', ':'] = (l ++ [':']) ++ [':'] := by simp
  rw [stripTwoColons, e, List.getLast?_concat, if_pos rfl, List.dropLast_concat,
    List.getLast?_concat, if_pos rfl, List.dropLast_concat]

theorem partitionPairs_noSep {c : Char} {cs : List Char} (hc : c ≠ ':')
    (hp : hasPair (c :: cs) = false) (hl : (c :: cs).getLast? ≠ some ':') :
    partitionPairs (c :: cs) = some (c :: cs, none) := by
  rw [partitionPairs, show (c = ':' && c = ':') = false by simp [hc], partScan_noPair hp,
    stripTwoColons_of_ne hl]
  rfl

theorem partitionPairs_sep {c : Char} {cs s2 : List Char} (hc : c ≠ ':')
    (hp : hasPair (c :: cs) = false) (hl : (c :: cs).getLast? ≠ some ':') (hs2 : s2 ≠ []) :
    partitionPairs ((c :: cs) ++ ':' :: ':' :: s2) = some (c :: cs, some s2) := by
  rw [List.cons_append, partitionPairs, show (c = ':' && c = ':') = false by simp [hc],
    partScan_sep s2 (hasPair_append_colon hp hl)]
  have e : c :: (cs ++ [':', ':']) = (c :: cs) ++ [':', ':'] := by simp
  rw [e, stripTwoColons_append_sep hl]
  have h2 : s2.isEmpty = false := by simpa [List.isEmpty_iff] using hs2
  rw [h2]
  rfl

/-! ### Canonical field encodings are partition-compatible -/

theorem encode_ne_nil (fm : FieldMap) (h : fm.canonicalB = true) :
    ∃ c cs, fm.encode = c :: cs ∧ c ≠ ':' := by
  cases fm with
  | UPnP v => exact ⟨'u', _, rfl, by decide⟩
  | URN v => exact ⟨'u', _, rfl, by decide⟩
  | UUID v => exact ⟨'u', _, rfl, by decide⟩
  | Unknown k v =>
    rw [FieldMap.canonicalB] at h
    simp only [Bool.and_eq_true, Bool.not_eq_true'] at h
    obtain ⟨⟨⟨⟨⟨hkne, -⟩, hkc⟩, -⟩, -⟩, -⟩ := h
    cases k with
    | nil => simp at hkne
    | cons c t =>
      refine ⟨c, t ++ ':' :: v, rfl, ?_⟩
      intro hc
      have : ':' ∉ c :: t := by simpa using hkc
      exact this (by rw [← hc]; exact List.mem_cons_self _ _)

theorem all_value_append (pre : List Char) {v : List Char} (h1 : pre.all isValueChar = true)
    (h2 : v.all isValueChar = true) : (pre ++ ':' :: v).all isValueChar = true := by
  rw [List.all_append, List.all_cons, h1, h2]
  decide

theorem encode_all_value (fm : FieldMap) (h : fm.canonicalB = true) :
    fm.encode.all isValueChar = true := by
  cases fm with
  | UPnP v =>
    rw [FieldMap.canonicalB, Bool.and_eq_true] at h
    exact all_value_append ['u', 'p', 'n', 'p'] (by decide) h.2
  | URN v =>
    rw [FieldMap.canonicalB, Bool.and_eq_true] at h
    exact all_value_append ['u', 'r', 'n'] (by decide) h.2
  | UUID v =>
    rw [FieldMap.canonicalB, Bool.and_eq_true] at h
    exact all_value_append ['u', 'u', 'i', 'd'] (by decide) h.2
  | Unknown k v =>
    rw [FieldMap.canonicalB] at h
    simp only [Bool.and_eq_true, Bool.not_eq_true'] at h
    obtain ⟨⟨⟨⟨⟨-, -⟩, -⟩, hk⟩, hv⟩, -⟩ := h
    exact all_value_append k hk hv

/-! ### USN round trip -/

theorem usn_encode_none {f1 : FieldMap} (hc : f1.canonicalB = true) :
    USN.encode ⟨f1, none⟩ = [f1.encode] := by
  show (match headerValueFromStr f1.encode with | some v => [v] | none => []) = [f1.encode]
  rw [headerValueFromStr, if_pos (encode_all_value f1 hc)]

theorem usn_encode_some {f1 f2 : FieldMap} (h1 : f1.canonicalB = true)
    (h2 : f2.canonicalB = true) :
    USN.encode ⟨f1, some f2⟩ = [f1.encode ++ ':' :: ':' :: f2.encode] := by
  show (match headerValueFromStr (f1.encode ++ ':' :: ':' :: f2.encode) with
        | some v => [v] | none => []) = _
  have hall : (f1.encode ++ ':' :: ':' :: f2.encode).all isValueChar = true := by
    rw [List.all_append, List.all_cons, List.all_cons, encode_all_value f1 h1,
      encode_all_value f2 h2]
    decide
  rw [headerValueFromStr, if_pos hall]

theorem usn_roundtrip_none {f1 : FieldMap} (h : usnFirstOK f1 = true) :
    USN.decode (USN.encode ⟨f1, none⟩) = some ⟨f1, none⟩ := by
  rw [usnFirstOK, Bool.and_eq_true, Bool.and_eq_true] at h
  obtain ⟨⟨hc, hp⟩, hl⟩ := h
  have hp' : hasPair f1.encode = false := by simpa using hp
  have hl' : f1.encode.getLast? ≠ some ':' := by simpa using hl
  obtain ⟨c, cs, he, hcne⟩ := encode_ne_nil f1 hc
  have hpp : partitionPairs f1.encode = some (f1.encode, none) := by
    rw [he]
    exact partitionPairs_noSep hcne (he ▸ hp') (he ▸ hl')
  rw [usn_encode_none hc]
  simp only [USN.decode, hpp, parseBytes_encode hc]

theorem usn_roundtrip_some {f1 f2 : FieldMap} (h : usnFirstOK f1 = true)
    (h2 : f2.canonicalB = true) :
    USN.decode (USN.encode ⟨f1, some f2⟩) = some ⟨f1, some f2⟩ := by
  rw [usnFirstOK, Bool.and_eq_true, Bool.and_eq_true] at h
  obtain ⟨⟨hc, hp⟩, hl⟩ := h
  have hp' : hasPair f1.encode = false := by simpa using hp
  have hl' : f1.encode.getLast? ≠ some ':' := by simpa using hl
  obtain ⟨c, cs, he, hcne⟩ := encode_ne_nil f1 hc
  obtain ⟨c2, cs2, he2, -⟩ := encode_ne_nil f2 h2
  have hne2 : f2.encode ≠ [] := by rw [he2]; exact List.cons_ne_nil _ _
  have hpp : partitionPairs (f1.encode ++ ':' :: ':' :: f2.encode) =
      some (f1.encode, some f2.encode) := by
    rw [he]
    exact partitionPairs_sep hcne (he ▸ hp') (he ▸ hl') hne2
  rw [usn_encode_some hc h2]
  simp only [USN.decode, hpp, parseBytes_encode hc, parseBytes_encode h2]

/-! ### Header round trips -/

theorem headerValueFromStr_natRepr (n : Nat) :
    headerValueFromStr (natRepr n) = some (natRepr n) := by
  rw [headerValueFromStr, if_pos (natRepr_all_value n)]

theorem mx_roundtrip {n : Nat} (h1 : 1 ≤ n) (h2 : n ≤ 120) :
    MX.decode (MX.encode ⟨n⟩) = some ⟨n⟩ := by
  have henc : MX.encode ⟨n⟩ = [natRepr n] := by
    show (match headerValueFromStr (natRepr n) with | some v => [v] | none => []) = _
    rw [headerValueFromStr_natRepr]
  rw [henc]
  have hcond : (decide (1 ≤ n) && decide (n ≤ 120)) = true := by simp [h1, h2]
  simp only [MX.decode, unsignedFromStr_natRepr 255 (show n ≤ 255 by omega), hcond, if_true]

theorem bootid_roundtrip {n : Nat} (h : n ≤ 2 ^ 31 - 1) :
    BootID.decode (BootID.encode ⟨n⟩) = some ⟨n⟩ := by
  have henc : BootID.encode ⟨n⟩ = [natRepr n] := by
    show (match headerValueFromStr (natRepr n) with | some v => [v] | none => []) = _
    rw [headerValueFromStr_natRepr]
  rw [henc]
  simp only [BootID.decode, i32FromStr_natRepr h]
  rw [if_neg (by simp), Int.toNat_natCast]

theorem configid_roundtrip {n : Nat} (h : n ≤ 2 ^ 31 - 1) :
    ConfigID.decode (ConfigID.encode ⟨n⟩) = some ⟨n⟩ := by
  have henc : ConfigID.encode ⟨n⟩ = [natRepr n] := by
    show (match headerValueFromStr (natRepr n) with | some v => [v] | none => []) = _
    rw [headerValueFromStr_natRepr]
  rw [henc]
  simp only [ConfigID.decode, i32FromStr_natRepr h]
  rw [if_neg (by simp), Int.toNat_natCast]

theorem searchport_roundtrip {n : Nat} (h1 : 49152 ≤ n) (h2 : n ≤ 65535) :
    SearchPort.decode (SearchPort.encode ⟨n⟩) = some ⟨n⟩ := by
  have henc : SearchPort.encode ⟨n⟩ = [natRepr n] := by
    show (match headerValueFromStr (natRepr n) with | some v => [v] | none => []) = _
    rw [headerValueFromStr_natRepr]
  rw [henc]
  simp only [SearchPort.decode, unsignedFromStr_natRepr 65535 h2]
  rw [if_pos h1]

theorem nt_roundtrip {f : FieldMap} (h : f.canonicalB = true) :
    NT.decode (NT.encode ⟨f⟩) = some ⟨f⟩ := by
  have henc : NT.encode ⟨f⟩ = [f.encode] := by
    show (match headerValueFromStr f.encode with | some v => [v] | none => []) = _
    rw [headerValueFromStr, if_pos (encode_all_value f h)]
  rw [henc]
  simp only [NT.decode, parseBytes_encode h, Option.map_some']

theorem st_roundtrip_target {f : FieldMap} (h : f.canonicalB = true)
    (hall : f.encode ≠ ("ssdp:all").data) :
    ∃ vs, ST.encode (.Target f) = some vs ∧ ST.decode vs = some (.Target f) := by
  refine ⟨[f.encode], ?_, ?_⟩
  · show (headerValueFromStr f.encode).map (fun v => [v]) = _
    rw [headerValueFromStr, if_pos (encode_all_value f h), Option.map_some']
  · simp only [ST.decode, if_neg hall, parseBytes_encode h, Option.map_some']

/-! ### Claims -/

/-- C1 counterexample: the value `ST::Target(Unknown("ssdp", "all"))` satisfies
every invariant the data model states for field tokens (both sides non-empty;
`ssdp` is not a reserved prefix, so the value is even producible by
`FieldMap::parse_bytes`, e.g. through `NT`), yet encoding it yields the literal
`ssdp:all`, which decodes to `ST::All`, not back to the original value — so
`decode(encode(v)) == v` does not hold for every valid `v`. -/
theorem c1_roundtrip_counterexample :
    (FieldMap.Unknown ("ssdp").data ("all").data).canonicalB = true ∧
    FieldMap.parseBytes ("ssdp:all").data = some (.Unknown ("ssdp").data ("all").data) ∧
    ST.encode (.Target (.Unknown ("ssdp").data ("all").data)) = some [("ssdp:all").data] ∧
    ST.decode [("ssdp:all").data] = some .All ∧
    ST.All ≠ ST.Target (.Unknown ("ssdp").data ("all").data) := by
  decide

/-- C1 (amended): decode∘encode is the identity on every valid value of the
Man, NTS, MX, BootID, ConfigID and SearchPort headers; for NT, ST and USN it
is the identity on canonical field tokens (non-empty legal payloads, `Unknown`
keys colon-free and not a case-insensitive reserved prefix), except that an
`ST::Target` must not encode to the literal `ssdp:all` (which decodes to
`All`) and the first `USN` field's encoding must not contain `::` or end in a
colon (otherwise `partition_pairs` splits it elsewhere). -/
theorem c1_roundtrip_amended :
    (∀ m : Man, Man.decode (Man.encode m) = some m) ∧
    (∀ v : NTS, NTS.decode (NTS.encode v) = some v) ∧
    (∀ n : Nat, 1 ≤ n → n ≤ 120 → MX.decode (MX.encode ⟨n⟩) = some ⟨n⟩) ∧
    (∀ n : Nat, n ≤ 2 ^ 31 - 1 → BootID.decode (BootID.encode ⟨n⟩) = some ⟨n⟩) ∧
    (∀ n : Nat, n ≤ 2 ^ 31 - 1 → ConfigID.decode (ConfigID.encode ⟨n⟩) = some ⟨n⟩) ∧
    (∀ n : Nat, 49152 ≤ n → n ≤ 65535 → SearchPort.decode (SearchPort.encode ⟨n⟩) = some ⟨n⟩) ∧
    (∀ f : FieldMap, f.canonicalB = true → NT.decode (NT.encode ⟨f⟩) = some ⟨f⟩) ∧
    (ST.encode .All = some [("ssdp:all").data] ∧ ST.decode [("ssdp:all").data] = some .All) ∧
    (∀ f : FieldMap, f.canonicalB = true → f.encode ≠ ("ssdp:all").data →
      ∃ vs, ST.encode (.Target f) = some vs ∧ ST.decode vs = some (.Target f)) ∧
    (∀ f1 : FieldMap, usnFirstOK f1 = true →
      USN.decode (USN.encode ⟨f1, none⟩) = some ⟨f1, none⟩) ∧
    (∀ f1 f2 : FieldMap, usnFirstOK f1 = true → f2.canonicalB = true →
      USN.decode (USN.encode ⟨f1, some f2⟩) = some ⟨f1, some f2⟩) := by
  refine ⟨fun m => by cases m; decide, fun v => by cases v <;> decide,
    fun n h1 h2 => mx_roundtrip h1 h2, fun n h => bootid_roundtrip h,
    fun n h => configid_roundtrip h, fun n h1 h2 => searchport_roundtrip h1 h2,
    fun f h => nt_roundtrip h, by decide,
    fun f h hne => st_roundtrip_target h hne,
    fun f1 h => usn_roundtrip_none h,
    fun f1 f2 h h2 => usn_roundtrip_some h h2⟩

/-- C1 witness: the amended round-trip law applied to `MX(5)` and to
`USN(UUID("device-UUID"), Some(UPnP("rootdevice")))`. -/
theorem c1_roundtrip_witness :
    MX.decode (MX.encode ⟨5⟩) = some ⟨5⟩ ∧
    USN.decode (USN.encode ⟨.UUID ("device-UUID").data, some (.UPnP ("rootdevice").data)⟩) =
      some ⟨.UUID ("device-UUID").data, some (.UPnP ("rootdevice").data)⟩ :=
  ⟨c1_roundtrip_amended.2.2.1 5 (by decide) (by decide),
   c1_roundtrip_amended.2.2.2.2.2.2.2.2.2.2 _ _ (by decide) (by decide)⟩

/-- C2: the request-sending path is stubbed.  `send_request` builds the URL
and the header copy but its final write is commented out, so no bytes reach
the connector; and the alternative serializer `httpu::Request::serialize`
hard-codes `HOST: 239.255.255.250:1900` instead of the destination — both in
contradiction with the crate's own tests, which expect
`M-SEARCH * HTTP/1.1` and `Host: 127.0.0.1:0` in the sent bytes. -/
theorem c2_send_request_stubbed :
    sendRequest searchMethod [] ("127.0.0.1").data 0 = .ok [] ∧
    httpuSerializeRequest searchMethod [] PacketBuffer.default =
      .ok ⟨("M-SEARCH * HTTP/1.1\r\nHOST: 239.255.255.250:1900\r\n\r\n").data, 1500⟩ := by
  exact ⟨rfl, by decide⟩

/-- C3 counterexample: a message whose bytes begin with `HTTP/2.0` (the
spec's own example literal) does not fail with `InvalidHttpVersion`: it is
not `HTTP/1`-prefixed, so it is parsed as a request, whose method token
`HTTP/2.0` (or, for a `NOTIFY` request line, the version parse) fails inside
the HTTP parser, surfacing as the malformed-wire error `InvalidHttp`. -/
theorem c3_version_counterexample :
    fromPacket ("HTTP/2.0 200 OK\r\nHOST: 192.168.1.1\r\n\r\n").data = .error .InvalidHttp ∧
    fromPacket ("NOTIFY * HTTP/2.0\r\nHOST: 192.168.1.1\r\n\r\n").data = .error .InvalidHttp ∧
    SSDPError.InvalidHttp ≠ SSDPError.InvalidHttpVersion := by
  decide

/-- C3 (amended): for messages the HTTP parser accepts, a minor version other
than 1 (i.e. `HTTP/1.0`, the only other version the parser accepts) fails
with the dedicated `InvalidHttpVersion` error, and this check precedes the
method, target, Host and status-code validation on both paths; a message
beginning with `HTTP/2.0` instead fails the underlying HTTP parse with the
generic malformed-wire error. -/
theorem c3_version_check :
    (∀ parts : HRequest, parts.minor ≠ 1 →
      messageFromRequest parts = .error .InvalidHttpVersion) ∧
    (∀ parts : HResponse, parts.minor ≠ 1 →
      messageFromResponse parts = .error .InvalidHttpVersion) ∧
    fromPacket ("NOTIFY / HTTP/1.0\r\n\r\n").data = .error .InvalidHttpVersion ∧
    fromPacket ("HTTP/1.0 404 NF\r\n\r\n").data = .error .InvalidHttpVersion := by
  refine ⟨?_, ?_, by decide, by decide⟩
  · intro parts h
    have hv : validateHttpVersion (some parts.minor) = .error .InvalidHttpVersion := by
      rw [validateHttpVersion, if_neg (by simpa using h)]
    simp only [messageFromRequest, hv]
  · intro parts h
    have hv : validateHttpVersion (some parts.minor) = .error .InvalidHttpVersion := by
      rw [validateHttpVersion, if_neg (by simpa using h)]
    simp only [messageFromResponse, hv]

/-- C3 witness: the request-path version check applied to a parsed `NOTIFY`
request with minor version 0 and well-formed headers. -/
theorem c3_version_check_witness :
    messageFromRequest ⟨notifyMethod, ['*'], 0, [(("host").data, ("x").data)]⟩ =
      .error .InvalidHttpVersion :=
  c3_version_check.1 _ (by decide)

/-- C4 counterexample: a non-empty second partition that fails the field
grammar does not make `USN::decode` fail, contrary to the claim: the second
field is silently dropped (`rootdevice` has no colon, so it is unparsable,
and decode succeeds with no second field). -/
theorem c4_usn_counterexample :
    USN.decode [("uuid:device-UUID::rootdevice").data] =
      some ⟨.UUID ("device-UUID").data, none⟩ := by
  decide

/-- C4 (amended): `USN::decode` partitions at the first `::` (stripping up to
two trailing colons from the first partition), requires the first partition to
parse as a field token, treats an empty second partition as absent — but a
non-empty second partition that fails the field grammar is also treated as
absent rather than causing failure.  All the concrete examples hold:
`uuid:device-UUID::upnp:rootdevice`, `urn:device-URN`, `upnp:device-UPnP::`
decode as stated, and `""`, `":"`, `"::"`, `"uuid:::"` are rejected. -/
theorem c4_usn_decode :
    USN.decode [("uuid:device-UUID::upnp:rootdevice").data] =
      some ⟨.UUID ("device-UUID").data, some (.UPnP ("rootdevice").data)⟩ ∧
    USN.decode [("urn:device-URN").data] = some ⟨.URN ("device-URN").data, none⟩ ∧
    USN.decode [("upnp:device-UPnP::").data] = some ⟨.UPnP ("device-UPnP").data, none⟩ ∧
    USN.decode [[]] = none ∧
    USN.decode [[':']] = none ∧
    USN.decode [[':', ':']] = none ∧
    USN.decode [("uuid:::").data] = none ∧
    (∀ v fst snd : List Char, ∀ fm : FieldMap,
      partitionPairs v = some (fst, some snd) → FieldMap.parseBytes fst = some fm →
      FieldMap.parseBytes snd = none → USN.decode [v] = some ⟨fm, none⟩) ∧
    (∀ v fst : List Char, ∀ osnd : Option (List Char),
      partitionPairs v = some (fst, osnd) → FieldMap.parseBytes fst = none →
      USN.decode [v] = none) ∧
    (∀ v : List Char, partitionPairs v = none → USN.decode [v] = none) := by
  refine ⟨by decide, by decide, by decide, by decide, by decide, by decide, by decide,
    ?_, ?_, ?_⟩
  · intro v fst snd fm hp h1 h2
    simp only [USN.decode, hp, h1, h2]
  · intro v fst osnd hp h1
    cases osnd <;> simp only [USN.decode, hp, h1]
  · intro v hp
    simp only [USN.decode, hp]

/-- C4 witness: the silent-drop rule applied to the concrete value
`uuid:x::y` (whose second partition `y` is unparsable). -/
theorem c4_usn_decode_witness :
    USN.decode [("uuid:x::y").data] = some ⟨.UUID ['x'], none⟩ :=
  c4_usn_decode.2.2.2.2.2.2.2.1 (("uuid:x::y").data) (("uuid:x").data) ['y'] (.UUID ['x'])
    (by decide) (by decide) (by decide)

/-- C5: `ConfigID::decode` is the one header codec that does not reject a
second supplied value — it decodes the first value and ignores the rest,
while every other codec (here `BootID`, `MX`, `ST` as representatives, all
following the generic single-value contract) fails; zero values still
fail for `ConfigID`. -/
theorem c5_configid_accepts_second_value :
    ConfigID.decode [['0'], ['1']] = some ⟨0⟩ ∧
    ConfigID.decode [] = none ∧
    BootID.decode [['0'], ['1']] = none ∧
    MX.decode [['1'], ['1']] = none ∧
    ST.decode [("ssdp:all").data, ("ssdp:all").data] = none := by
  decide

/-- C6: on the request path (after the version and header-syntax checks), a
missing `Host` header fails with the missing-header error; with `Host`
present, a target other than `*` fails with the bad-URI error naming the
target (the `Host` check precedes the target check, so the concrete `/`
example carries a `Host` header); with `Host` present and target `*`, a
method that is not case-sensitively `NOTIFY` or `M-SEARCH` fails with the
bad-method error naming the method. -/
theorem c6_request_validation :
    (∀ parts : HRequest, ∀ headers : HeaderMap, parts.minor = 1 →
      validateHttpHeaders parts.headers = .ok headers →
      (hmGet headers (("host").data) = none →
        messageFromRequest parts = .error (.MissingHeader (("host").data))) ∧
      (hmGet headers (("host").data) ≠ none → parts.path ≠ ['*'] →
        messageFromRequest parts = .error (.InvalidUri parts.path)) ∧
      (hmGet headers (("host").data) ≠ none → parts.path = ['*'] →
        parts.method ≠ notifyMethod → parts.method ≠ searchMethod →
        messageFromRequest parts = .error (.InvalidMethod parts.method))) ∧
    fromPacket ("NOTIFY / HTTP/1.1\r\nHOST: 192.168.1.1\r\n\r\n").data =
      .error (.InvalidUri ['/']) ∧
    fromPacket ("GET * HTTP/1.1\r\nHOST: 192.168.1.1\r\n\r\n").data =
      .error (.InvalidMethod ("GET").data) ∧
    fromPacket ("notify * HTTP/1.1\r\nHOST: 192.168.1.1\r\n\r\n").data =
      .error (.InvalidMethod ("notify").data) ∧
    fromPacket ("NOTIFY * HTTP/1.1\r\n\r\n").data =
      .error (.MissingHeader (("host").data)) := by
  refine ⟨?_, by decide, by decide, by decide, by decide⟩
  intro parts headers hminor hh
  have hv : validateHttpVersion (some parts.minor) = .ok () := by
    rw [hminor]
    rfl
  refine ⟨?_, ?_, ?_⟩
  · intro hhost
    simp only [messageFromRequest, hv, hh, if_pos hhost]
  · intro hhost hpath
    simp only [messageFromRequest, hv, hh, if_neg hhost, if_pos hpath]
  · intro hhost hpath hm1 hm2
    simp only [messageFromRequest, hv, hh, if_neg hhost,
      if_neg (not_not_intro hpath), if_neg hm1, if_neg hm2]

/-- C6 witness: the bad-method rule applied to a parsed `GET * HTTP/1.1`
request carrying a `Host` header. -/
theorem c6_request_validation_witness :
    messageFromRequest ⟨("GET").data, ['*'], 1, [(("host").data, ("x").data)]⟩ =
      .error (.InvalidMethod ("GET").data) :=
  (c6_request_validation.1 _ [(("host").data, ("x").data)] rfl (by decide)).2.2
    (by decide) rfl (by decide) (by decide)

/-- C7 counterexample: on the response path the unexpected-body error names
the literal `M-SEARCH` — a request method — not the response kind of the
message being decoded. -/
theorem c7_body_counterexample :
    fromPacket ("HTTP/1.1 200 OK\r\n\r\nx").data =
      .error (.InvalidBodyForMethod ("M-SEARCH").data) := by
  decide

/-- C7 (amended): any bytes remaining after the header block terminator make
decoding fail with the unexpected-body error; on the request path the error
names the request's own method, but on the response path it always names the
literal `M-SEARCH`, not the response kind. -/
theorem c7_body_check :
    (∀ bytes rest : List Char, ∀ parts : HRequest,
      ("HTTP/1").data.isPrefixOf bytes = false →
      parseRequestRetry bytes = .ok parts rest → rest ≠ [] →
      fromPacket bytes = .error (.InvalidBodyForMethod parts.method)) ∧
    (∀ bytes rest : List Char, ∀ parts : HResponse,
      ("HTTP/1").data.isPrefixOf bytes = true →
      parseResponseRetry bytes = .ok parts rest → rest ≠ [] →
      fromPacket bytes = .error (.InvalidBodyForMethod (("M-SEARCH").data))) ∧
    fromPacket ("NOTIFY * HTTP/1.1\r\nHOST: 192.168.1.1\r\n\r\nbody").data =
      .error (.InvalidBodyForMethod ("NOTIFY").data) := by
  refine ⟨?_, ?_, by decide⟩
  · intro bytes rest parts hpre hp hrest
    rw [fromPacket, if_neg (by simp [hpre])]
    simp only [hp, if_pos hrest]
  · intro bytes rest parts hpre hp hrest
    rw [fromPacket, if_pos (by simp [hpre])]
    simp only [hp, if_pos hrest]

/-- C7 witness: the response-path body rule applied to a 200 response with
one trailing byte. -/
theorem c7_body_check_witness :
    fromPacket ("HTTP/1.1 200 OK\r\n\r\nZ").data =
      .error (.InvalidBodyForMethod (("M-SEARCH").data)) :=
  c7_body_check.2.1 (("HTTP/1.1 200 OK\r\n\r\nZ").data) ['Z'] ⟨1, 200, []⟩
    (by decide) (by decide) (by decide)

/-- C8: `BootID` and `ConfigID` parse the full value as a signed 32-bit
decimal integer and then reject negatives: `0`, `2147483647` and `-0` are
accepted (`-0` yields 0); any all-digit literal above `2147483647`, any
negative literal with a non-zero value, and any text not of the form
optional-sign-then-digits are rejected. -/
theorem c8_numeric_bounds :
    BootID.decode [['0']] = some ⟨0⟩ ∧
    BootID.decode [("2147483647").data] = some ⟨2147483647⟩ ∧
    BootID.decode [['-', '0']] = some ⟨0⟩ ∧
    ConfigID.decode [['0']] = some ⟨0⟩ ∧
    ConfigID.decode [("2147483647").data] = some ⟨2147483647⟩ ∧
    ConfigID.decode [['-', '0']] = some ⟨0⟩ ∧
    (∀ v : List Char, ∀ n : Nat, digitsVal v = some n → 2 ^ 31 - 1 < n →
      BootID.decode [v] = none ∧ ConfigID.decode [v] = none) ∧
    (∀ v : List Char, ∀ n : Nat, digitsVal v = some n → 0 < n →
      BootID.decode ['-' :: v] = none ∧ ConfigID.decode ['-' :: v] = none) ∧
    (∀ v : List Char, numericShape v = false →
      BootID.decode [v] = none ∧ ConfigID.decode [v] = none) := by
  refine ⟨by decide, by decide, by decide, by decide, by decide, by decide, ?_, ?_, ?_⟩
  · intro v n hd hn
    obtain ⟨c, cs, rfl⟩ : ∃ c cs, v = c :: cs := by
      cases v with
      | nil => exact absurd hd (by rw [digitsVal]; exact Option.noConfusion)
      | cons c cs => exact ⟨c, cs, rfl⟩
    have hc := digitsVal_head_digit hd
    have hcp : c ≠ '+' := fun he => hc (by rw [he]; decide)
    have hcm : c ≠ '-' := fun he => hc (by rw [he]; decide)
    have hi : i32FromStr (c :: cs) = none := by
      rw [i32FromStr, if_neg hcp, if_neg hcm, hd, boundedNat, if_neg (by omega)]
      rfl
    exact ⟨by simp only [BootID.decode, hi], by simp only [ConfigID.decode, hi]⟩
  · intro v n hd hn
    have hi : i32FromStr ('-' :: v) =
        (boundedNat (2 ^ 31) (some n)).map (fun m => -(Int.ofNat m)) := by
      rw [i32FromStr, if_neg (by decide), if_pos rfl, hd]
    by_cases hb : n ≤ 2 ^ 31
    · rw [boundedNat, if_pos hb, Option.map_some'] at hi
      have hneg : (-(Int.ofNat n) < 0) := by
        simp only [Int.ofNat_eq_coe]
        omega
      constructor
      · simp only [BootID.decode, hi, if_pos hneg]
      · simp only [ConfigID.decode, hi, if_pos hneg]
    · rw [boundedNat, if_neg hb, Option.map_none'] at hi
      constructor
      · simp only [BootID.decode, hi]
      · simp only [ConfigID.decode, hi]
  · intro v hv
    have hi := i32FromStr_none_of_not_numeric hv
    exact ⟨by simp only [BootID.decode, hi], by simp only [ConfigID.decode, hi]⟩

/-- C8 witness: the overflow rule applied to the literal `2147483648`, one
above the signed 32-bit maximum. -/
theorem c8_numeric_bounds_witness :
    BootID.decode [("2147483648").data] = none ∧
    ConfigID.decode [("2147483648").data] = none :=
  c8_numeric_bounds.2.2.2.2.2.2.1 (("2147483648").data) 2147483648 (by decide) (by decide)

/-- C9: a multicast search without an `MX` header fails during setup with a
missing-header error; with `MX = n` (within the header's 1..120 invariant)
the receiver deadline is `n + 1` seconds, so `MX = 5` gives 6 seconds; a
unicast search without `MX` uses the 2-second default total wait. -/
theorem c9_search_timeouts :
    multicastTimeout none =
      .error (.MissingHeader (("Multicast Searches Require An MX Header").data)) ∧
    (∀ n : Nat, n ≤ 120 → multicastTimeout (some n) = .ok (n + 1)) ∧
    multicastTimeout (some 5) = .ok 6 ∧
    optUnicastTimeout none = some 2 := by
  refine ⟨rfl, ?_, by decide, rfl⟩
  intro n h
  show Except.ok ((n + networkTimeoutOverhead) % 256) = Except.ok (n + 1)
  rw [networkTimeoutOverhead, Nat.mod_eq_of_lt (by omega)]

/-- C9 witness: the multicast deadline rule applied at `MX = 5`. -/
theorem c9_search_timeouts_witness : multicastTimeout (some 5) = .ok 6 :=
  c9_search_timeouts.2.1 5 (by decide)

/-- C10: `PacketBuffer::write` always succeeds, accepting exactly
`min (input length) (remaining space below the MMU)` bytes and reporting that
count, so a buffer within its 1500-byte bound stays within it after every
write; `UdpSender::flush` transmits the buffered bytes as one datagram and
clears the buffer; consequently a single write of a message longer than
1500 bytes into a fresh default buffer keeps only the first 1500 bytes and
reports success. -/
theorem c10_packet_buffer :
    (∀ pb : PacketBuffer, ∀ buf : List Char,
      pb.write buf =
        .ok (⟨pb.buffer ++ buf.take (min buf.length (pb.mmu - pb.buffer.length)), pb.mmu⟩,
          min buf.length (pb.mmu - pb.buffer.length))) ∧
    (∀ pb : PacketBuffer, ∀ buf : List Char, ∀ pb' : PacketBuffer, ∀ k : Nat,
      pb.write buf = .ok (pb', k) → k ≤ pb.mmu - pb.buffer.length) ∧
    (∀ pb : PacketBuffer, ∀ buf : List Char, ∀ pb' : PacketBuffer, ∀ k : Nat,
      pb.write buf = .ok (pb', k) → pb.mmu = 1500 → pb.buffer.length ≤ 1500 →
      pb'.buffer.length ≤ 1500) ∧
    (∀ s : UdpSender, (s.flush).sent = s.sent ++ [s.buf.buffer] ∧ (s.flush).buf.buffer = []) ∧
    (∀ msg : List Char, 1500 < msg.length →
      PacketBuffer.default.write msg = .ok (⟨msg.take 1500, 1500⟩, 1500)) := by
  refine ⟨fun pb buf => rfl, ?_, ?_, ?_, ?_⟩
  · intro pb buf pb' k h
    rw [PacketBuffer.write] at h
    simp only [Except.ok.injEq, Prod.mk.injEq] at h
    rw [← h.2]
    exact min_le_right _ _
  · intro pb buf pb' k h hmmu hlen
    rw [PacketBuffer.write] at h
    simp only [Except.ok.injEq, Prod.mk.injEq] at h
    rw [← h.1]
    simp only [List.length_append, List.length_take]
    rw [hmmu] at *
    omega
  · intro s
    exact ⟨rfl, rfl⟩
  · intro msg h
    show Except.ok
        (PacketBuffer.mk
          (([] : List Char) ++ msg.take (min msg.length (1500 - ([] : List Char).length)))
          1500,
          min msg.length (1500 - ([] : List Char).length)) =
      Except.ok (PacketBuffer.mk (msg.take 1500) 1500, (1500 : Nat))
    rw [List.length_nil, Nat.sub_zero, Nat.min_eq_right (le_of_lt h), List.nil_append]

/-- C10 witness: writing a 1501-byte message into the default buffer
truncates it to 1500 accepted bytes with no error. -/
theorem c10_packet_buffer_witness :
    PacketBuffer.default.write (List.replicate 1501 'a') =
      .ok (⟨(List.replicate 1501 'a').take 1500, 1500⟩, 1500) :=
  c10_packet_buffer.2.2.2.2 (List.replicate 1501 'a')
    (by rw [List.length_replicate]; omega)

end Ssdp
